import Mathlib

/-!
Shallow embedding of `remap_keys.py` (key_remapper), a small CLI that builds a
systemd hwdb entry remapping keyboard scan codes.  Python strings are `String`,
`None` is `Option.none`, the filesystem is an explicit oracle.  Whitespace and
digit classes are modelled over the ASCII range.
-/

/-- Python truthiness of an optional string: `None` and the empty string are falsy. -/
def pyFalsy : Option String → Bool
  | none => true
  | some s => s == ""

/-- Python `str.strip()`: drop leading and trailing whitespace (ASCII model). -/
def pyStrip (s : String) : String :=
  String.mk (((s.data.dropWhile Char.isWhitespace).reverse.dropWhile Char.isWhitespace).reverse)

/-- Embeds `read_file`: the oracle `fs` gives a file's raw content, or `none` when any
of the handled I/O exceptions (not-found / permission / other) occurs; on success the
content is stripped.  Diagnostics printed on failure are not modelled. -/
def read_file (fs : String → Option String) (file_path : String) : Option String :=
  (fs file_path).map pyStrip

/-- Embeds `get_device`: read `/sys/class/input/<event>/device/<path>`. -/
def get_device (fs : String → Option String) (event path : String) : Option String :=
  read_file fs ("/sys/class/input/" ++ event ++ "/device/" ++ path)

/-- Embeds `get_device_name`. -/
def get_device_name (fs : String → Option String) (event : String) : Option String :=
  get_device fs event "name"

/-- Embeds `get_device_phys`. -/
def get_device_phys (fs : String → Option String) (event : String) : Option String :=
  get_device fs event "phys"

/-- Embeds `get_device_ev`. -/
def get_device_ev (fs : String → Option String) (event : String) : Option String :=
  get_device fs event "capabilities/ev"

/-- Embeds `get_system_vendor`: read `/sys/class/dmi/id/sys_vendor`. -/
def get_system_vendor (fs : String → Option String) : Option String :=
  read_file fs "/sys/class/dmi/id/sys_vendor"

/-- After one or more digits have been seen, continue matching the tail of
`\d+$` in Python `re` semantics: more digits, end of string, or a single final
newline (Python dollar anchor also matches just before a trailing newline). -/
def tailDigitsDollar : List Char → Bool
  | [] => true
  | c :: cs => (c == '\n' && cs.isEmpty) || (c.isDigit && tailDigitsDollar cs)

/-- Match `\d+$` (one or more digits then the dollar anchor) against a char list. -/
def matchPlusDollar : List Char → Bool
  | [] => false
  | c :: cs => c.isDigit && tailDigitsDollar cs

/-- Embeds `re.match(r"^event\d+$", s)` (as a Boolean): the literal `event`
followed by one or more digits, where the dollar anchor also accepts one
trailing newline (Python semantics). -/
def reMatchEventNum (s : String) : Bool :=
  match s.data with
  | 'e' :: 'v' :: 'e' :: 'n' :: 't' :: rest => matchPlusDollar rest
  | _ => false

/-- Embeds `validate_event_device`: the name must match the regex and the
directory `/sys/class/input/<event>` must exist (`dirExists` oracle). -/
def validate_event_device (dirExists : String → Bool) (event : String) : Bool :=
  if !reMatchEventNum event then false
  else if !dirExists ("/sys/class/input/" ++ event) then false
  else true

/-- The header template of the hwdb entry, identity values inserted verbatim
(the trailing newline of the f-string is kept separate). -/
def hwdbHeaderLine (name phys ev vendor : String) : String :=
  "evdev:name:" ++ name ++ ":phys:" ++ phys ++ ":ev:" ++ ev ++
    ":dmi:bvn*:bvr*:bd*:svn" ++ vendor ++ ":pn*"

/-- One mapping line of the hwdb entry: a space, `KEYBOARD_KEY_`, key, `=`, value, newline. -/
def mappingLine (kv : String × String) : String :=
  " KEYBOARD_KEY_" ++ kv.1 ++ "=" ++ kv.2 ++ "\n"

/-- The concatenation of the mapping lines, in order. -/
def mappingLines : List (String × String) → String
  | [] => ""
  | kv :: rest => mappingLine kv ++ mappingLines rest

/-- Embeds `get_hwdb_evdev_entry`.  The Python parameters are annotated `str`
but are not enforced, and `main` could in principle hand over `None`-like
values, so identity inputs are optional strings here with Python truthiness;
the dict argument is embedded as its item list in insertion order. -/
def get_hwdb_evdev_entry (name phys ev vendor : Option String)
    (key_code_mapping : List (String × String)) : Option String :=
  if pyFalsy name || pyFalsy phys || pyFalsy ev || pyFalsy vendor then none
  else some (key_code_mapping.foldl (fun acc kv => acc ++ mappingLine kv)
    (hwdbHeaderLine (name.getD "") (phys.getD "") (ev.getD "") (vendor.getD "") ++ "\n"))

/-- Embeds `write_hwdb_entry` over an explicit output-filesystem state:
falsy entry text is rejected before any filesystem operation; otherwise the
`writeOk` oracle decides whether opening for truncating write succeeds, and on
success the file's content becomes the entry text. -/
def write_hwdb_entry (writeOk : String → Bool) (outFs : String → Option String)
    (hwdb_entry : Option String) (output_file : String) :
    Bool × (String → Option String) :=
  if pyFalsy hwdb_entry then (false, outFs)
  else if writeOk output_file then
    (true, fun p => if p = output_file then some (hwdb_entry.getD "") else outFs p)
  else (false, outFs)

/-- Python dict assignment `m[k] = v` on an insertion-ordered association list:
if the key is present its value is replaced in place, otherwise the pair is
appended at the end. -/
def dictInsert (m : List (String × String)) (k v : String) : List (String × String) :=
  if m.any (fun p => p.1 == k) then
    m.map (fun p => if p.1 == k then (k, v) else p)
  else m ++ [(k, v)]

/-- Embeds the merge loop of `main` (lines 236-240): fold all `--mapping`
pairs into an initially empty Python dict. -/
def buildMapping (pairs : List (String × String)) : List (String × String) :=
  pairs.foldl (fun m kv => dictInsert m kv.1 kv.2) []

/-- Remove duplicates from a list keeping each element's first occurrence,
skipping elements already seen. -/
def dedupFirstAux (seen : List String) : List String → List String
  | [] => []
  | k :: ks =>
    if seen.contains k then dedupFirstAux seen ks
    else k :: dedupFirstAux (k :: seen) ks

/-- First-occurrence deduplication of a key list. -/
def dedupFirst (l : List String) : List String := dedupFirstAux [] l

/-- Accumulate further digits of a Python integer literal; a single underscore
is allowed between two digits (Python 3.6+ grouping). -/
def parseDigitsAux : Nat → List Char → Option Nat
  | acc, [] => some acc
  | acc, '_' :: c :: cs =>
    if c.isDigit then parseDigitsAux (10 * acc + (c.toNat - 48)) cs else none
  | acc, c :: cs =>
    if c.isDigit then parseDigitsAux (10 * acc + (c.toNat - 48)) cs else none

/-- Parse a non-empty digit sequence (with underscore grouping) as a natural number. -/
def parseDigits : List Char → Option Nat
  | [] => none
  | c :: cs => if c.isDigit then parseDigitsAux (c.toNat - 48) cs else none

/-- Model of Python `int(s)` over the ASCII range: strip whitespace, optional
sign, then a non-empty digit sequence; `none` models the `ValueError` raise. -/
def pyInt (s : String) : Option Int :=
  match (pyStrip s).data with
  | '+' :: rest => (parseDigits rest).map Int.ofNat
  | '-' :: rest => (parseDigits rest).map (fun n => -(Int.ofNat n))
  | rest => (parseDigits rest).map Int.ofNat

/-- Python slice `s[n:]` on code points. -/
def sliceFrom (s : String) (n : Nat) : String := String.mk (s.data.drop n)

/-- Does `l` start with `p`? -/
def startsWithCh : List Char → List Char → Bool
  | _, [] => true
  | [], _ :: _ => false
  | c :: l, d :: p => c == d && startsWithCh l p

/-- Does `l` contain `p` as a contiguous subsequence? -/
def containsSeqCh : List Char → List Char → Bool
  | [], p => p.isEmpty
  | c :: l, p => startsWithCh (c :: l) p || containsSeqCh l p

/-- Does string `s` contain `pat` as a contiguous substring? -/
def containsSeq (s pat : String) : Bool := containsSeqCh s.data pat.data

/-- The first line of a string: everything up to (excluding) the first newline. -/
def firstLine (s : String) : String := String.mk (s.data.takeWhile (fun c => c != '\n'))

/-- The world the program runs against: readable files, directory existence,
the enumeration order of `/sys/class/input`, and the writable output filesystem. -/
structure SysEnv where
  fs : String → Option String
  dirExists : String → Bool
  inputEntries : List String
  outFs : String → Option String
  writeOk : String → Bool

/-- The parsed command-line arguments as `argparse` hands them to `main`:
`mapping` is `none` when no `--mapping` was given (append action default). -/
structure Args where
  list_devices : Bool
  device : Option String
  mapping : Option (List (String × String))
  output : String

/-- Embeds `list_available_devices`: if the base directory is missing the list
is empty; otherwise every enumerated entry matching the `event*` glob whose
`name` attribute is truthy yields a record `(event, name, phys-or-placeholder)`. -/
def list_available_devices (env : SysEnv) : List (String × String × String) :=
  if !env.dirExists "/sys/class/input" then []
  else (env.inputEntries.filter (fun e => startsWithCh e.data "event".data)).filterMap
    (fun event =>
      let name := get_device_name env.fs event
      let phys := get_device_phys env.fs event
      if pyFalsy name then none
      else some (event, name.getD "", if pyFalsy phys then "N/A" else phys.getD ""))

/-- The observable outcome of a run of `main`: the exit code, the entry text
produced by the call to `get_hwdb_evdev_entry` (if that call happened), the
final output filesystem, and (in list mode) the sorted device records. -/
structure MainOut where
  exit : Int
  built : Option String
  outFs : String → Option String
  listed : List (String × String × String)

/-- Python truthiness of the optional `args.mapping` list: `None` and the empty
list are falsy. -/
def pyFalsyMapping : Option (List (String × String)) → Bool
  | none => true
  | some l => l.isEmpty

/-- The entry text the remap pipeline of `main` constructs at line 243: the four
freshly read identity attributes and the merged `--mapping` dict are handed to
the builder. -/
def builtEntry (env : SysEnv) (args : Args) (event : String) : Option String :=
  get_hwdb_evdev_entry (get_device_name env.fs event) (get_device_phys env.fs event)
    (get_device_ev env.fs event) (get_system_vendor env.fs)
    (buildMapping (args.mapping.getD []))

/-- Embeds the remap-mode tail of `main` (validation through follow-up hints),
given the positional device argument. -/
def remapMode (env : SysEnv) (args : Args) (event : String) : MainOut :=
  if !validate_event_device env.dirExists event then ⟨1, none, env.outFs, []⟩
  else if pyFalsyMapping args.mapping && !args.list_devices then
    ⟨1, none, env.outFs, []⟩
  else if pyFalsy (get_device_name env.fs event) then ⟨1, none, env.outFs, []⟩
  else if pyFalsy (get_device_phys env.fs event) then ⟨1, none, env.outFs, []⟩
  else if pyFalsy (get_device_ev env.fs event) then ⟨1, none, env.outFs, []⟩
  else if pyFalsy (get_system_vendor env.fs) then ⟨1, none, env.outFs, []⟩
  else if pyFalsy (builtEntry env args event) then
    ⟨1, builtEntry env args event, env.outFs, []⟩
  else if (write_hwdb_entry env.writeOk env.outFs (builtEntry env args event) args.output).1 then
    ⟨0, builtEntry env args event,
      (write_hwdb_entry env.writeOk env.outFs (builtEntry env args event) args.output).2, []⟩
  else
    ⟨1, builtEntry env args event,
      (write_hwdb_entry env.writeOk env.outFs (builtEntry env args event) args.output).2, []⟩

/-- Embeds the list-devices branch of `main`: empty listing exits 1; otherwise
the devices are sorted by `int(event[5:])` — the key extraction raises an
unhandled `ValueError` (modelled as `Except.error`) when a suffix does not
parse — and the run exits 0. -/
def pyListMode (env : SysEnv) : Except String MainOut :=
  let devices := list_available_devices env
  if devices.isEmpty then Except.ok ⟨1, none, env.outFs, []⟩
  else if devices.all (fun d => ((pyInt (sliceFrom d.1 5))).isSome) then
    Except.ok ⟨0, none, env.outFs,
      devices.mergeSort (fun a b =>
        ((pyInt (sliceFrom a.1 5)).getD 0) ≤ ((pyInt (sliceFrom b.1 5)).getD 0))⟩
  else Except.error "ValueError"

/-- Embeds `main`: list mode, then the no-device help path (empty-string device
is falsy, as in Python), then remap mode.  `Except.error` models an unhandled
exception escaping `main`. -/
def pyMain (env : SysEnv) (args : Args) : Except String MainOut :=
  if args.list_devices then pyListMode env
  else if pyFalsy args.device then Except.ok ⟨1, none, env.outFs, []⟩
  else Except.ok (remapMode env args (args.device.getD ""))

/-- The identifier shape exactly as the specification words it: the literal
`event` followed by one or more decimal digits (and nothing else). -/
def eventStrictShape (s : String) : Bool :=
  match s.data with
  | 'e' :: 'v' :: 'e' :: 'n' :: 't' :: rest => !rest.isEmpty && rest.all Char.isDigit
  | _ => false

lemma pyFalsy_eq_true_iff (o : Option String) : pyFalsy o = true ↔ (o = none ∨ o = some "") := by
  cases o with
  | none => simp [pyFalsy]
  | some t => simp [pyFalsy, beq_iff_eq]

lemma pyFalsy_eq_false_iff (o : Option String) : pyFalsy o = false ↔ ∃ t, o = some t ∧ t ≠ "" := by
  cases o with
  | none => simp [pyFalsy]
  | some t => simp [pyFalsy, beq_iff_eq]

lemma strData_append (s t : String) : (s ++ t).data = s.data ++ t.data := rfl

lemma foldl_mappingLine (mp : List (String × String)) : ∀ init : String,
    mp.foldl (fun acc kv => acc ++ mappingLine kv) init = init ++ mappingLines mp := by
  induction mp with
  | nil => intro init; simp [mappingLines, List.foldl, String.append_empty]
  | cons kv rest ih =>
    intro init
    simp only [List.foldl, mappingLines]
    rw [ih (init ++ mappingLine kv), String.append_assoc]

lemma get_entry_eq (n p e v : String) (mp : List (String × String))
    (hn : n ≠ "") (hp : p ≠ "") (he : e ≠ "") (hv : v ≠ "") :
    get_hwdb_evdev_entry (some n) (some p) (some e) (some v) mp =
      some (hwdbHeaderLine n p e v ++ "\n" ++ mappingLines mp) := by
  unfold get_hwdb_evdev_entry
  have h1 : pyFalsy (some n) = false := by simp [pyFalsy, beq_iff_eq, hn]
  have h2 : pyFalsy (some p) = false := by simp [pyFalsy, beq_iff_eq, hp]
  have h3 : pyFalsy (some e) = false := by simp [pyFalsy, beq_iff_eq, he]
  have h4 : pyFalsy (some v) = false := by simp [pyFalsy, beq_iff_eq, hv]
  rw [h1, h2, h3, h4]
  simp only [Bool.false_or, Bool.or_self, if_neg Bool.false_ne_true, Option.getD_some]
  rw [foldl_mappingLine]

/-- C2: `build` returns absent iff at least one of the four identity inputs is
empty or absent, for every combination of present and absent identity fields and
every mapping. -/
theorem build_absent_iff_identity_missing (name phys ev vendor : Option String)
    (mapping : List (String × String)) :
    get_hwdb_evdev_entry name phys ev vendor mapping = none ↔
      ((name = none ∨ name = some "") ∨ (phys = none ∨ phys = some "") ∨
       (ev = none ∨ ev = some "") ∨ (vendor = none ∨ vendor = some "")) := by
  have key : get_hwdb_evdev_entry name phys ev vendor mapping = none ↔
      (pyFalsy name || pyFalsy phys || pyFalsy ev || pyFalsy vendor) = true := by
    unfold get_hwdb_evdev_entry
    split
    · simp_all
    · simp_all
  rw [key]
  simp only [Bool.or_eq_true, pyFalsy_eq_true_iff]
  tauto

/-- C7: given a falsy (absent or empty) entry text, `write_hwdb_entry` reports
failure and leaves the output filesystem exactly as it was. -/
theorem write_falsy_entry_is_noop (writeOk : String → Bool) (outFs : String → Option String)
    (entry : Option String) (output_file : String) (h : pyFalsy entry = true) :
    write_hwdb_entry writeOk outFs entry output_file = (false, outFs) := by
  unfold write_hwdb_entry
  rw [if_pos h]

theorem write_falsy_entry_is_noop_witness :
    pyFalsy (some "") = true ∧
      write_hwdb_entry (fun _ => true) (fun _ => none) (some "") "99-keyboard.hwdb" =
        (false, fun _ => none) :=
  ⟨rfl, write_falsy_entry_is_noop (fun _ => true) (fun _ => none) (some "") "99-keyboard.hwdb" rfl⟩

/-- C8: with all four identity strings non-empty and the empty mapping, `build`
returns the header line alone (newline-terminated): the builder itself does not
require at least one mapping pair. -/
theorem build_empty_mapping_header_only (name phys ev vendor : String)
    (hn : name ≠ "") (hp : phys ≠ "") (he : ev ≠ "") (hv : vendor ≠ "") :
    get_hwdb_evdev_entry (some name) (some phys) (some ev) (some vendor) [] =
      some (hwdbHeaderLine name phys ev vendor ++ "\n") := by
  rw [get_entry_eq name phys ev vendor [] hn hp he hv]
  simp [mappingLines, String.append_empty]

theorem build_empty_mapping_header_only_witness :
    ("Foo Keyboard" ≠ "" ∧ "usb-1/input0" ≠ "" ∧ "120013" ≠ "" ∧ "DellInc." ≠ "") ∧
      get_hwdb_evdev_entry (some "Foo Keyboard") (some "usb-1/input0") (some "120013")
          (some "DellInc.") [] =
        some (hwdbHeaderLine "Foo Keyboard" "usb-1/input0" "120013" "DellInc." ++ "\n") :=
  ⟨by decide, build_empty_mapping_header_only "Foo Keyboard" "usb-1/input0" "120013" "DellInc."
    (by decide) (by decide) (by decide) (by decide)⟩

lemma takeWhile_append_newline (a r : List Char) :
    (a ++ '\n' :: r).takeWhile (fun c => c != '\n') = a.takeWhile (fun c => c != '\n') := by
  induction a with
  | nil => simp [List.takeWhile_cons]
  | cons c a ih => simp only [List.cons_append, List.takeWhile_cons, ih]

lemma takeWhile_of_all (p : Char → Bool) (l : List Char) (h : l.all p = true) :
    l.takeWhile p = l := by
  induction l with
  | nil => rfl
  | cons c l ih =>
    simp only [List.all_cons, Bool.and_eq_true] at h
    simp [List.takeWhile_cons, h.1, ih h.2]

lemma firstLine_header_part (a b : String) : firstLine (a ++ "\n" ++ b) = firstLine a := by
  unfold firstLine
  have hd : (a ++ "\n" ++ b).data = a.data ++ '\n' :: b.data := by
    rw [strData_append, strData_append, List.append_assoc]
    rfl
  rw [hd, takeWhile_append_newline]

/-- C1 counterexample: with the non-empty name `"a\nb"` (a newline inside a
verbatim-inserted value), the first line of the built text is `"evdev:name:a"`,
which is not the header template with the four values inserted. -/
theorem build_first_line_counterexample :
    get_hwdb_evdev_entry (some "a\nb") (some "p") (some "e") (some "v") [] =
      some "evdev:name:a\nb:phys:p:ev:e:dmi:bvn*:bvr*:bd*:svnv:pn*\n" ∧
    firstLine "evdev:name:a\nb:phys:p:ev:e:dmi:bvn*:bvr*:bd*:svnv:pn*\n" = "evdev:name:a" ∧
    firstLine "evdev:name:a\nb:phys:p:ev:e:dmi:bvn*:bvr*:bd*:svnv:pn*\n" ≠
      hwdbHeaderLine "a\nb" "p" "e" "v" :=
  ⟨by decide, by decide, by decide⟩

/-- C1 (amended): for non-empty identity strings the built text is exactly the
header template (values verbatim), a newline, then one
`" KEYBOARD_KEY_<key>=<value>\n"` string per mapping pair in stored order; when
the identity values contain no newline the text's first line is exactly the
header template. -/
theorem build_text_structure (n p e v : String) (mp : List (String × String))
    (hn : n ≠ "") (hp : p ≠ "") (he : e ≠ "") (hv : v ≠ "") :
    get_hwdb_evdev_entry (some n) (some p) (some e) (some v) mp =
      some (hwdbHeaderLine n p e v ++ "\n" ++ mappingLines mp) ∧
    (n.data.all (fun c => c != '\n') = true → p.data.all (fun c => c != '\n') = true →
     e.data.all (fun c => c != '\n') = true → v.data.all (fun c => c != '\n') = true →
      firstLine (hwdbHeaderLine n p e v ++ "\n" ++ mappingLines mp) = hwdbHeaderLine n p e v) := by
  refine ⟨get_entry_eq n p e v mp hn hp he hv, ?_⟩
  intro h1 h2 h3 h4
  rw [firstLine_header_part]
  have hall : (hwdbHeaderLine n p e v).data.all (fun c => c != '\n') = true := by
    simp only [hwdbHeaderLine, strData_append, List.all_append, Bool.and_eq_true]
    simp only [h1, h2, h3, h4, eq_self_iff_true, and_true, true_and]
    decide
  unfold firstLine
  rw [takeWhile_of_all _ _ hall]

theorem build_text_structure_witness :
    ("Foo Keyboard" ≠ "" ∧ "usb-1/input0" ≠ "" ∧ "120013" ≠ "" ∧ "DellInc." ≠ "") ∧
    (get_hwdb_evdev_entry (some "Foo Keyboard") (some "usb-1/input0") (some "120013")
        (some "DellInc.") [("1d", "LEFTALT")] =
      some (hwdbHeaderLine "Foo Keyboard" "usb-1/input0" "120013" "DellInc." ++ "\n" ++
        mappingLines [("1d", "LEFTALT")]) ∧
    ("Foo Keyboard".data.all (fun c => c != '\n') = true →
     "usb-1/input0".data.all (fun c => c != '\n') = true →
     "120013".data.all (fun c => c != '\n') = true →
     "DellInc.".data.all (fun c => c != '\n') = true →
      firstLine (hwdbHeaderLine "Foo Keyboard" "usb-1/input0" "120013" "DellInc." ++ "\n" ++
          mappingLines [("1d", "LEFTALT")]) =
        hwdbHeaderLine "Foo Keyboard" "usb-1/input0" "120013" "DellInc.")) :=
  ⟨by decide, build_text_structure "Foo Keyboard" "usb-1/input0" "120013" "DellInc."
    [("1d", "LEFTALT")] (by decide) (by decide) (by decide) (by decide)⟩

lemma tailDigitsDollar_iff (cs : List Char) :
    tailDigitsDollar cs = true ↔
      ∃ ds : List Char, (∀ c ∈ ds, c.isDigit = true) ∧ (cs = ds ∨ cs = ds ++ ['\n']) := by
  induction cs with
  | nil =>
    refine iff_of_true rfl ⟨[], by simp, Or.inl rfl⟩
  | cons c cs ih =>
    have hdef : tailDigitsDollar (c :: cs) =
        ((c == '\n' && cs.isEmpty) || (c.isDigit && tailDigitsDollar cs)) := rfl
    rw [hdef]
    simp only [Bool.or_eq_true, Bool.and_eq_true]
    constructor
    · rintro (⟨hc, hcs⟩ | ⟨hc, hcs⟩)
      · have hc' : c = '\n' := beq_iff_eq.mp hc
        have hcs' : cs = [] := List.isEmpty_iff.mp hcs
        subst hc'; subst hcs'
        exact ⟨[], by simp, Or.inr rfl⟩
      · obtain ⟨ds, hdig, hcase⟩ := ih.mp hcs
        refine ⟨c :: ds, ?_, ?_⟩
        · intro x hx
          rcases List.mem_cons.mp hx with rfl | hx
          · exact hc
          · exact hdig x hx
        · rcases hcase with rfl | h2
          · exact Or.inl rfl
          · exact Or.inr (by rw [h2]; rfl)
    · rintro ⟨ds, hdig, hcase | hcase⟩
      · subst hcase
        right
        refine ⟨hdig c (List.mem_cons_self c cs), ?_⟩
        exact ih.mpr ⟨cs, fun x hx => hdig x (List.mem_cons_of_mem c hx), Or.inl rfl⟩
      · cases ds with
        | nil =>
          simp only [List.nil_append, List.cons.injEq] at hcase
          obtain ⟨rfl, rfl⟩ := hcase
          left
          exact ⟨by decide, by decide⟩
        | cons d ds =>
          simp only [List.cons_append, List.cons.injEq] at hcase
          obtain ⟨rfl, rfl⟩ := hcase
          right
          refine ⟨hdig c (List.mem_cons_self c _), ?_⟩
          exact ih.mpr ⟨ds, fun x hx => hdig x (List.mem_cons_of_mem c hx), Or.inr rfl⟩

lemma matchPlusDollar_iff (cs : List Char) :
    matchPlusDollar cs = true ↔
      ∃ ds : List Char, ds ≠ [] ∧ (∀ c ∈ ds, c.isDigit = true) ∧
        (cs = ds ∨ cs = ds ++ ['\n']) := by
  cases cs with
  | nil =>
    constructor
    · intro h; exact absurd h (by decide)
    · rintro ⟨ds, hne, _, hc | hc⟩
      · exact absurd hc.symm hne
      · exact absurd hc (by simp)
  | cons c cs =>
    simp only [matchPlusDollar, Bool.and_eq_true]
    constructor
    · rintro ⟨hc, ht⟩
      obtain ⟨ds, hdig, hcase⟩ := (tailDigitsDollar_iff cs).mp ht
      refine ⟨c :: ds, by simp, ?_, ?_⟩
      · intro x hx
        rcases List.mem_cons.mp hx with rfl | hx
        · exact hc
        · exact hdig x hx
      · rcases hcase with rfl | h2
        · exact Or.inl rfl
        · exact Or.inr (by rw [h2]; rfl)
    · rintro ⟨ds, hne, hdig, hcase⟩
      cases ds with
      | nil => exact absurd rfl hne
      | cons d ds =>
        rcases hcase with hc | hc
        · have h2 : c = d ∧ cs = ds := by
            simpa only [List.cons.injEq] using hc
          obtain ⟨rfl, rfl⟩ := h2
          exact ⟨hdig c (List.mem_cons_self c _),
            (tailDigitsDollar_iff cs).mpr
              ⟨cs, fun x hx => hdig x (List.mem_cons_of_mem c hx), Or.inl rfl⟩⟩
        · have h2 : c = d ∧ cs = ds ++ ['\n'] := by
            simpa only [List.cons_append, List.cons.injEq] using hc
          obtain ⟨rfl, rfl⟩ := h2
          exact ⟨hdig c (List.mem_cons_self c _),
            (tailDigitsDollar_iff _).mpr
              ⟨ds, fun x hx => hdig x (List.mem_cons_of_mem c hx), Or.inr rfl⟩⟩

lemma reMatchEventNum_iff (s : String) :
    reMatchEventNum s = true ↔
      ∃ ds : List Char, ds ≠ [] ∧ (∀ c ∈ ds, c.isDigit = true) ∧
        (s.data = 'e' :: 'v' :: 'e' :: 'n' :: 't' :: ds ∨
         s.data = 'e' :: 'v' :: 'e' :: 'n' :: 't' :: (ds ++ ['\n'])) := by
  unfold reMatchEventNum
  split
  · next rest heq =>
    rw [matchPlusDollar_iff]
    constructor
    · rintro ⟨ds, hne, hdig, hc | hc⟩
      · exact ⟨ds, hne, hdig, Or.inl (by rw [heq, hc])⟩
      · exact ⟨ds, hne, hdig, Or.inr (by rw [heq, hc])⟩
    · rintro ⟨ds, hne, hdig, hc | hc⟩
      · rw [heq] at hc
        simp only [List.cons.injEq, true_and] at hc
        exact ⟨ds, hne, hdig, Or.inl hc⟩
      · rw [heq] at hc
        simp only [List.cons.injEq, true_and] at hc
        exact ⟨ds, hne, hdig, Or.inr hc⟩
  · next hno =>
    constructor
    · intro h; exact absurd h (by decide)
    · rintro ⟨ds, hne, hdig, hc | hc⟩
      · exact absurd hc (by intro hh; exact hno ds hh)
      · exact absurd hc (by intro hh; exact hno (ds ++ ['\n']) hh)

/-- C5 counterexample: Python's dollar anchor also matches just before a
trailing newline, so `validate` accepts `"event7\n"` whenever the directory
oracle reports the (oddly named) directory as existing, although `"event7\n"`
is not `event` followed only by decimal digits. -/
theorem validate_trailing_newline_counterexample :
    validate_event_device (fun _ => true) "event7\n" = true ∧
    eventStrictShape "event7\n" = false ∧ eventStrictShape "event7" = true :=
  ⟨by decide, by decide, by decide⟩

/-- C5 (amended): `validate` is true iff the identifier is `event` followed by
one or more decimal digits, optionally followed by one trailing newline
(Python dollar-anchor semantics), and the directory exists; in particular
`validate "eventX"` and `validate "7"` are false regardless of the filesystem. -/
theorem validate_characterization (dirExists : String → Bool) :
    (∀ e : String, validate_event_device dirExists e = true ↔
      ((∃ ds : List Char, ds ≠ [] ∧ (∀ c ∈ ds, c.isDigit = true) ∧
        (e.data = 'e' :: 'v' :: 'e' :: 'n' :: 't' :: ds ∨
         e.data = 'e' :: 'v' :: 'e' :: 'n' :: 't' :: (ds ++ ['\n']))) ∧
       dirExists ("/sys/class/input/" ++ e) = true)) ∧
    validate_event_device dirExists "eventX" = false ∧
    validate_event_device dirExists "7" = false := by
  refine ⟨?_, ?_, ?_⟩
  · intro e
    have hval : validate_event_device dirExists e =
        (reMatchEventNum e && dirExists ("/sys/class/input/" ++ e)) := by
      unfold validate_event_device
      cases reMatchEventNum e <;> cases dirExists ("/sys/class/input/" ++ e) <;> simp
    rw [hval, Bool.and_eq_true, reMatchEventNum_iff]
  · have hre : reMatchEventNum "eventX" = false := by decide
    unfold validate_event_device
    rw [hre]
    rfl
  · have hre : reMatchEventNum "7" = false := by decide
    unfold validate_event_device
    rw [hre]
    rfl

lemma startsWithCh_nilpat (l : List Char) : startsWithCh l [] = true := by
  cases l <;> rfl

lemma startsWithCh_extend (pat : List Char) :
    ∀ x y, startsWithCh x pat = true → startsWithCh (x ++ y) pat = true := by
  induction pat with
  | nil => intro x y _; exact startsWithCh_nilpat _
  | cons d p ih =>
    intro x y h
    cases x with
    | nil => simp [startsWithCh] at h
    | cons c x =>
      simp only [List.cons_append, startsWithCh, Bool.and_eq_true] at h ⊢
      exact ⟨h.1, ih x y h.2⟩

lemma containsSeqCh_nilpat (l : List Char) : containsSeqCh l [] = true := by
  cases l <;> rfl

lemma containsSeqCh_append_left (x y pat : List Char) (h : containsSeqCh x pat = true) :
    containsSeqCh (x ++ y) pat = true := by
  induction x with
  | nil =>
    have : pat = [] := List.isEmpty_iff.mp h
    subst this
    exact containsSeqCh_nilpat y
  | cons c x ih =>
    simp only [containsSeqCh, Bool.or_eq_true] at h ⊢
    rcases h with h | h
    · exact Or.inl (startsWithCh_extend pat (c :: x) y h)
    · exact Or.inr (ih h)

lemma startsWithCh_cross (sep : Char) (pat : List Char) :
    ∀ x r, pat.all (fun c => c != sep) = true →
      startsWithCh (x ++ sep :: r) pat = true → startsWithCh x pat = true := by
  induction pat with
  | nil => intro x r _ _; exact startsWithCh_nilpat x
  | cons d p ih =>
    intro x r hall h
    have hpair : (d != sep) = true ∧ p.all (fun c => c != sep) = true := by
      simpa only [List.all_cons, Bool.and_eq_true] using hall
    cases x with
    | nil =>
      exfalso
      simp only [List.nil_append, startsWithCh, Bool.and_eq_true] at h
      have hds : d = sep := (beq_iff_eq.mp h.1).symm
      rw [hds] at hpair
      simpa using hpair.1
    | cons c x =>
      simp only [List.cons_append, startsWithCh, Bool.and_eq_true] at h ⊢
      exact ⟨h.1, ih x r hpair.2 h.2⟩

lemma containsSeqCh_strip_front (pat t : List Char) (hd : Char)
    (hhead : pat.head? = some hd) :
    ∀ g, g.all (fun c => c != hd) = true →
      containsSeqCh (g ++ t) pat = true → containsSeqCh t pat = true := by
  intro g
  induction g with
  | nil => intro _ h; exact h
  | cons c g ih =>
    intro hg h
    have hpair : (c != hd) = true ∧ g.all (fun x => x != hd) = true := by
      simpa only [List.all_cons, Bool.and_eq_true] using hg
    simp only [List.cons_append, containsSeqCh, Bool.or_eq_true] at h
    rcases h with h | h
    · exfalso
      cases pat with
      | nil => simp at hhead
      | cons d p =>
        have hdc : d = hd := Option.some.inj hhead
        simp only [startsWithCh, Bool.and_eq_true] at h
        have hcd : c = d := beq_iff_eq.mp h.1
        have := hpair.1
        rw [hcd, hdc] at this
        simp at this
    · exact ih hpair.2 h

lemma containsSeqCh_cross_sep (sep : Char) (pat r : List Char)
    (hall : pat.all (fun c => c != sep) = true) :
    ∀ x, containsSeqCh x pat = false →
      containsSeqCh (x ++ sep :: r) pat = true → containsSeqCh r pat = true := by
  intro x
  induction x with
  | nil =>
    intro hnx h
    simp only [List.nil_append, containsSeqCh, Bool.or_eq_true] at h
    rcases h with h | h
    · exfalso
      cases pat with
      | nil => exact absurd hnx (by simp [containsSeqCh])
      | cons d p =>
        simp only [startsWithCh, Bool.and_eq_true] at h
        have hds : d = sep := (beq_iff_eq.mp h.1).symm
        have hpair : (d != sep) = true ∧ p.all (fun c => c != sep) = true := by
          simpa only [List.all_cons, Bool.and_eq_true] using hall
        have := hpair.1
        rw [hds] at this
        simp at this
    · exact h
  | cons c x ih =>
    intro hnx h
    have hnx2 : startsWithCh (c :: x) pat = false ∧ containsSeqCh x pat = false := by
      have hor : (startsWithCh (c :: x) pat || containsSeqCh x pat) = false := hnx
      exact ⟨by cases hb : startsWithCh (c :: x) pat <;> simp_all,
             by cases hb : containsSeqCh x pat <;> simp_all⟩
    simp only [List.cons_append, containsSeqCh, Bool.or_eq_true] at h
    rcases h with h | h
    · exfalso
      have : startsWithCh (c :: x) pat = true :=
        startsWithCh_cross sep pat (c :: x) r hall h
      rw [hnx2.1] at this
      exact Bool.false_ne_true this
    · exact ih hnx2.2 h

lemma header_no_keymarker (n p e v : String)
    (h1 : containsSeq n "KEYBOARD_KEY_" = false) (h2 : containsSeq p "KEYBOARD_KEY_" = false)
    (h3 : containsSeq e "KEYBOARD_KEY_" = false) (h4 : containsSeq v "KEYBOARD_KEY_" = false) :
    containsSeq (hwdbHeaderLine n p e v) "KEYBOARD_KEY_" = false := by
  cases hq : containsSeq (hwdbHeaderLine n p e v) "KEYBOARD_KEY_" with
  | false => rfl
  | true =>
    exfalso
    unfold containsSeq at hq h1 h2 h3 h4
    have hdata : (hwdbHeaderLine n p e v).data =
        "evdev:name:".data ++ (n.data ++ (":phys:".data ++ (p.data ++ (":ev:".data ++
          (e.data ++ (":dmi:bvn*:bvr*:bd*:svn".data ++ (v.data ++ ":pn*".data))))))) := by
      simp only [hwdbHeaderLine, strData_append, List.append_assoc]
    rw [hdata] at hq
    have hhd : "KEYBOARD_KEY_".data.head? = some 'K' := rfl
    have hsep : "KEYBOARD_KEY_".data.all (fun c => c != ':') = true := by decide
    have s1 := containsSeqCh_strip_front "KEYBOARD_KEY_".data _ 'K' hhd
      "evdev:name:".data (by decide) hq
    have s1' : containsSeqCh (n.data ++ ':' :: ("phys:".data ++ (p.data ++ (":ev:".data ++
        (e.data ++ (":dmi:bvn*:bvr*:bd*:svn".data ++ (v.data ++ ":pn*".data)))))))
        "KEYBOARD_KEY_".data = true := s1
    have s2 := containsSeqCh_cross_sep ':' "KEYBOARD_KEY_".data _ hsep n.data h1 s1'
    have s3 := containsSeqCh_strip_front "KEYBOARD_KEY_".data _ 'K' hhd
      "phys:".data (by decide) s2
    have s3' : containsSeqCh (p.data ++ ':' :: ("ev:".data ++ (e.data ++
        (":dmi:bvn*:bvr*:bd*:svn".data ++ (v.data ++ ":pn*".data)))))
        "KEYBOARD_KEY_".data = true := s3
    have s4 := containsSeqCh_cross_sep ':' "KEYBOARD_KEY_".data _ hsep p.data h2 s3'
    have s5 := containsSeqCh_strip_front "KEYBOARD_KEY_".data _ 'K' hhd
      "ev:".data (by decide) s4
    have s5' : containsSeqCh (e.data ++ ':' :: ("dmi:bvn*:bvr*:bd*:svn".data ++
        (v.data ++ ":pn*".data))) "KEYBOARD_KEY_".data = true := s5
    have s6 := containsSeqCh_cross_sep ':' "KEYBOARD_KEY_".data _ hsep e.data h3 s5'
    have s7 := containsSeqCh_strip_front "KEYBOARD_KEY_".data _ 'K' hhd
      "dmi:bvn*:bvr*:bd*:svn".data (by decide) s6
    have s7' : containsSeqCh (v.data ++ ':' :: "pn*".data) "KEYBOARD_KEY_".data = true := s7
    have s8 := containsSeqCh_cross_sep ':' "KEYBOARD_KEY_".data _ hsep v.data h4 s7'
    exact absurd s8 (by decide)

/-- C6 counterexample: with the non-empty name `"KEYBOARD_KEY_x"` the header
line of the built text does contain the literal sequence `KEYBOARD_KEY_`,
because identity values are inserted verbatim. -/
theorem header_marker_counterexample :
    get_hwdb_evdev_entry (some "KEYBOARD_KEY_x") (some "p") (some "e") (some "v") [] =
      some "evdev:name:KEYBOARD_KEY_x:phys:p:ev:e:dmi:bvn*:bvr*:bd*:svnv:pn*\n" ∧
    containsSeq
      (firstLine "evdev:name:KEYBOARD_KEY_x:phys:p:ev:e:dmi:bvn*:bvr*:bd*:svnv:pn*\n")
      "KEYBOARD_KEY_" = true :=
  ⟨by decide, by decide⟩

/-- C6 (amended): for non-empty identity strings none of which contains the
sequence `KEYBOARD_KEY_`, the first (header) line of the built text does not
contain `KEYBOARD_KEY_` — the fixed template never contributes the marker. -/
theorem header_line_marker_free (n p e v : String) (mp : List (String × String))
    (hn : n ≠ "") (hp : p ≠ "") (he : e ≠ "") (hv : v ≠ "")
    (h1 : containsSeq n "KEYBOARD_KEY_" = false) (h2 : containsSeq p "KEYBOARD_KEY_" = false)
    (h3 : containsSeq e "KEYBOARD_KEY_" = false) (h4 : containsSeq v "KEYBOARD_KEY_" = false) :
    ∀ s, get_hwdb_evdev_entry (some n) (some p) (some e) (some v) mp = some s →
      containsSeq (firstLine s) "KEYBOARD_KEY_" = false := by
  intro s hs
  rw [get_entry_eq n p e v mp hn hp he hv] at hs
  have hs' : hwdbHeaderLine n p e v ++ "\n" ++ mappingLines mp = s := Option.some.inj hs
  subst hs'
  rw [firstLine_header_part]
  have hno := header_no_keymarker n p e v h1 h2 h3 h4
  cases hq : containsSeq (firstLine (hwdbHeaderLine n p e v)) "KEYBOARD_KEY_" with
  | false => rfl
  | true =>
    exfalso
    unfold containsSeq firstLine at hq
    have h5 : containsSeqCh
        ((hwdbHeaderLine n p e v).data.takeWhile (fun c => c != '\n') ++
         (hwdbHeaderLine n p e v).data.dropWhile (fun c => c != '\n'))
        "KEYBOARD_KEY_".data = true :=
      containsSeqCh_append_left _ _ _ hq
    rw [List.takeWhile_append_dropWhile] at h5
    unfold containsSeq at hno
    rw [hno] at h5
    exact Bool.false_ne_true h5

theorem header_line_marker_free_witness :
    ("Foo" ≠ "" ∧ "p0" ≠ "" ∧ "120013" ≠ "" ∧ "Dell" ≠ "" ∧
     containsSeq "Foo" "KEYBOARD_KEY_" = false ∧
     containsSeq "p0" "KEYBOARD_KEY_" = false ∧
     containsSeq "120013" "KEYBOARD_KEY_" = false ∧
     containsSeq "Dell" "KEYBOARD_KEY_" = false ∧
     get_hwdb_evdev_entry (some "Foo") (some "p0") (some "120013") (some "Dell")
         [("1d", "LEFTALT")] =
       some "evdev:name:Foo:phys:p0:ev:120013:dmi:bvn*:bvr*:bd*:svnDell:pn*\n KEYBOARD_KEY_1d=LEFTALT\n") ∧
    containsSeq
      (firstLine "evdev:name:Foo:phys:p0:ev:120013:dmi:bvn*:bvr*:bd*:svnDell:pn*\n KEYBOARD_KEY_1d=LEFTALT\n")
      "KEYBOARD_KEY_" = false :=
  ⟨⟨by decide, by decide, by decide, by decide, by decide, by decide, by decide, by decide,
    by decide⟩,
   header_line_marker_free "Foo" "p0" "120013" "Dell" [("1d", "LEFTALT")]
     (by decide) (by decide) (by decide) (by decide)
     (by decide) (by decide) (by decide) (by decide)
     "evdev:name:Foo:phys:p0:ev:120013:dmi:bvn*:bvr*:bd*:svnDell:pn*\n KEYBOARD_KEY_1d=LEFTALT\n"
     (by decide)⟩

lemma any_key_iff (m : List (String × String)) (k : String) :
    m.any (fun p => p.1 == k) = true ↔ k ∈ m.map Prod.fst := by
  simp only [List.any_eq_true, List.mem_map, beq_iff_eq]

lemma contains_iff_mem (l : List String) (a : String) : l.contains a = true ↔ a ∈ l := by
  rw [show l.contains a = List.elem a l from rfl, List.elem_iff]

lemma keys_dictInsert_mem (m : List (String × String)) (k v : String)
    (hmem : m.any (fun p => p.1 == k) = true) :
    (dictInsert m k v).map Prod.fst = m.map Prod.fst := by
  unfold dictInsert
  rw [if_pos hmem, List.map_map]
  apply List.map_congr_left
  intro p _
  by_cases hb : (p.1 == k) = true
  · have : p.1 = k := beq_iff_eq.mp hb
    simp [Function.comp, hb, this]
  · simp only [Bool.not_eq_true] at hb
    simp [Function.comp, hb]

lemma keys_dictInsert_notmem (m : List (String × String)) (k v : String)
    (hmem : m.any (fun p => p.1 == k) = false) :
    (dictInsert m k v).map Prod.fst = m.map Prod.fst ++ [k] := by
  unfold dictInsert
  rw [if_neg (by rw [hmem]; exact Bool.false_ne_true), List.map_append]
  rfl

lemma nodup_keys_dictInsert (m : List (String × String)) (k v : String)
    (h : (m.map Prod.fst).Nodup) : ((dictInsert m k v).map Prod.fst).Nodup := by
  by_cases hmem : m.any (fun p => p.1 == k) = true
  · rw [keys_dictInsert_mem m k v hmem]; exact h
  · have hmem' : m.any (fun p => p.1 == k) = false := Bool.eq_false_iff.mpr hmem
    rw [keys_dictInsert_notmem m k v hmem']
    refine List.nodup_append.mpr ⟨h, List.nodup_singleton k, ?_⟩
    intro a ha hb
    have : a = k := by simpa using hb
    subst this
    exact hmem ((any_key_iff m a).mpr ha)

lemma dedupFirstAux_cons (seen : List String) (k : String) (ks : List String) :
    dedupFirstAux seen (k :: ks) =
      if seen.contains k then dedupFirstAux seen ks else k :: dedupFirstAux (k :: seen) ks := rfl

lemma dedupFirstAux_congr (l : List String) : ∀ s1 s2 : List String,
    (∀ a, a ∈ s1 ↔ a ∈ s2) → dedupFirstAux s1 l = dedupFirstAux s2 l := by
  induction l with
  | nil => intro s1 s2 _; rfl
  | cons k ks ih =>
    intro s1 s2 h
    unfold dedupFirstAux
    by_cases hk : k ∈ s1
    · rw [if_pos ((contains_iff_mem s1 k).mpr hk),
        if_pos ((contains_iff_mem s2 k).mpr ((h k).mp hk))]
      exact ih s1 s2 h
    · have hk2 : k ∉ s2 := fun hc => hk ((h k).mpr hc)
      rw [if_neg (fun hc => hk ((contains_iff_mem s1 k).mp hc)),
        if_neg (fun hc => hk2 ((contains_iff_mem s2 k).mp hc))]
      have hcong : ∀ a, a ∈ k :: s1 ↔ a ∈ k :: s2 := by
        intro a
        simp only [List.mem_cons]
        exact or_congr Iff.rfl (h a)
      rw [ih (k :: s1) (k :: s2) hcong]

lemma keys_foldl_dictInsert (ps : List (String × String)) : ∀ m : List (String × String),
    ((ps.foldl (fun acc kv => dictInsert acc kv.1 kv.2) m).map Prod.fst) =
      m.map Prod.fst ++ dedupFirstAux (m.map Prod.fst) (ps.map Prod.fst) := by
  induction ps with
  | nil => intro m; simp [dedupFirstAux]
  | cons kv ps ih =>
    intro m
    simp only [List.foldl_cons, List.map_cons]
    rw [ih (dictInsert m kv.1 kv.2)]
    by_cases hmem : m.any (fun p => p.1 == kv.1) = true
    · rw [keys_dictInsert_mem m kv.1 kv.2 hmem]
      have hk : (m.map Prod.fst).contains kv.1 = true :=
        (contains_iff_mem _ _).mpr ((any_key_iff m kv.1).mp hmem)
      rw [dedupFirstAux_cons, if_pos hk]
    · have hmem' : m.any (fun p => p.1 == kv.1) = false := Bool.eq_false_iff.mpr hmem
      rw [keys_dictInsert_notmem m kv.1 kv.2 hmem']
      have hknot : kv.1 ∉ m.map Prod.fst := fun hc => hmem ((any_key_iff m kv.1).mpr hc)
      have hk : (m.map Prod.fst).contains kv.1 ≠ true :=
        fun hc => hknot ((contains_iff_mem _ _).mp hc)
      rw [dedupFirstAux_cons, if_neg hk]
      rw [dedupFirstAux_congr (ps.map Prod.fst) (m.map Prod.fst ++ [kv.1])
        (kv.1 :: m.map Prod.fst) (by intro a; simp [List.mem_append, List.mem_cons, or_comm])]
      rw [List.append_assoc]
      rfl

lemma keys_buildMapping (ps : List (String × String)) :
    (buildMapping ps).map Prod.fst = dedupFirst (ps.map Prod.fst) := by
  unfold buildMapping dedupFirst
  rw [keys_foldl_dictInsert]
  simp

lemma filtK_nil_of_not_mem (m : List (String × String)) (K : String)
    (h : K ∉ m.map Prod.fst) : m.filter (fun kv => kv.1 == K) = [] := by
  apply List.filter_eq_nil_iff.mpr
  intro a ha hb
  exact h (List.mem_map.mpr ⟨a, ha, beq_iff_eq.mp hb⟩)

lemma filtK_replace (K v : String) :
    ∀ m : List (String × String), (m.map Prod.fst).Nodup →
      (m.map (fun p => if p.1 == K then (K, v) else p)).filter (fun kv => kv.1 == K) =
        (if K ∈ m.map Prod.fst then [(K, v)] else []) := by
  intro m
  induction m with
  | nil => intro _; simp
  | cons hd tl ih =>
    intro hnd
    have hnd2 : (hd.1 :: tl.map Prod.fst).Nodup := by
      rw [List.map_cons] at hnd; exact hnd
    obtain ⟨hhd, hnd'⟩ := List.nodup_cons.mp hnd2
    by_cases hb : (hd.1 == K) = true
    · have hK : hd.1 = K := beq_iff_eq.mp hb
      have hKtl : K ∉ tl.map Prod.fst := hK ▸ hhd
      have htl : (tl.map (fun p => if p.1 == K then (K, v) else p)).filter
          (fun kv => kv.1 == K) = [] := by
        rw [ih hnd', if_neg hKtl]
      have hmem : K ∈ hd.1 :: tl.map Prod.fst := by
        rw [hK]; exact List.mem_cons_self _ _
      simp only [List.map_cons, if_pos hb, List.filter_cons, htl]
      rw [if_pos (show ((K, v).1 == K) = true from beq_iff_eq.mpr rfl), if_pos hmem]
    · have hne : hd.1 ≠ K := fun hc => hb (beq_iff_eq.mpr hc)
      have hKm : (K ∈ hd.1 :: tl.map Prod.fst) ↔ (K ∈ tl.map Prod.fst) := by
        simp only [List.mem_cons]
        exact or_iff_right (fun hc => hne hc.symm)
      simp only [List.map_cons, List.filter_cons, if_neg hb]
      rw [ih hnd']
      by_cases hKin : K ∈ tl.map Prod.fst
      · rw [if_pos hKin, if_pos (hKm.mpr hKin)]
      · rw [if_neg hKin, if_neg (fun hc => hKin (hKm.mp hc))]

lemma filtK_dictInsert_self (m : List (String × String)) (K v : String)
    (hnd : (m.map Prod.fst).Nodup) :
    (dictInsert m K v).filter (fun kv => kv.1 == K) = [(K, v)] := by
  unfold dictInsert
  by_cases hmem : m.any (fun p => p.1 == K) = true
  · rw [if_pos hmem, filtK_replace K v m hnd, if_pos ((any_key_iff m K).mp hmem)]
  · rw [if_neg hmem, List.filter_append]
    have hKnot : K ∉ m.map Prod.fst := fun hc => hmem ((any_key_iff m K).mpr hc)
    rw [filtK_nil_of_not_mem m K hKnot]
    simp [List.filter_cons]

lemma filtK_replace_other (k v K : String) (hne : (k == K) = false) :
    ∀ m : List (String × String),
      (m.map (fun p => if p.1 == k then (k, v) else p)).filter (fun kv => kv.1 == K) =
        m.filter (fun kv => kv.1 == K) := by
  intro m
  induction m with
  | nil => rfl
  | cons hd tl ih =>
    simp only [List.map_cons, List.filter_cons]
    by_cases hb : (hd.1 == k) = true
    · have h2 : (hd.1 == K) = false := by rw [beq_iff_eq.mp hb]; exact hne
      have h1 : (((k, v) : String × String).1 == K) = false := hne
      simp only [if_pos hb]
      rw [if_neg (by simp [h1]), if_neg (by simp [h2])]
      exact ih
    · simp only [if_neg hb]
      by_cases hK : (hd.1 == K) = true
      · rw [if_pos hK, if_pos hK, ih]
      · rw [if_neg hK, if_neg hK]
        exact ih

lemma filtK_dictInsert_other (m : List (String × String)) (k v K : String)
    (hne : (k == K) = false) :
    (dictInsert m k v).filter (fun kv => kv.1 == K) = m.filter (fun kv => kv.1 == K) := by
  unfold dictInsert
  by_cases hmem : m.any (fun p => p.1 == k) = true
  · rw [if_pos hmem]
    exact filtK_replace_other k v K hne m
  · rw [if_neg hmem, List.filter_append]
    have : [(k, v)].filter (fun kv => kv.1 == K) = [] := by
      simp [List.filter_cons, hne]
    rw [this, List.append_nil]

lemma filtK_foldl (K : String) (ps : List (String × String)) : ∀ m : List (String × String),
    (m.map Prod.fst).Nodup →
    ((ps.foldl (fun acc kv => dictInsert acc kv.1 kv.2) m).filter (fun kv => kv.1 == K)) =
      (match (ps.filter (fun kv => kv.1 == K)).getLast? with
       | some kv => [(K, kv.2)]
       | none => m.filter (fun kv => kv.1 == K)) := by
  induction ps with
  | nil => intro m _; rfl
  | cons kv ps ih =>
    intro m hnd
    simp only [List.foldl_cons]
    rw [ih (dictInsert m kv.1 kv.2) (nodup_keys_dictInsert m kv.1 kv.2 hnd)]
    cases hps : (ps.filter (fun kv => kv.1 == K)).getLast? with
    | some kv0 =>
      have hne : ps.filter (fun kv => kv.1 == K) ≠ [] := by
        intro hnil
        rw [hnil] at hps
        exact Option.noConfusion hps
      have hcons : ((kv :: ps).filter (fun kv => kv.1 == K)).getLast? = some kv0 := by
        rw [List.filter_cons]
        by_cases hb : (kv.1 == K) = true
        · rw [if_pos hb, List.getLast?_cons, hps]
          rfl
        · rw [if_neg hb]
          exact hps
      rw [hcons]
    | none =>
      have hnil : ps.filter (fun kv => kv.1 == K) = [] := List.getLast?_eq_none_iff.mp hps
      by_cases hb : (kv.1 == K) = true
      · have hK : kv.1 = K := beq_iff_eq.mp hb
        have hcons : (kv :: ps).filter (fun kv => kv.1 == K) = [kv] := by
          rw [List.filter_cons, if_pos hb, hnil]
        rw [hcons]
        have : ([kv] : List (String × String)).getLast? = some kv := rfl
        rw [this]
        show (dictInsert m kv.1 kv.2).filter (fun kv => kv.1 == K) = [(K, kv.2)]
        rw [hK]
        exact filtK_dictInsert_self m K kv.2 hnd
      · have hne2 : (kv.1 == K) = false := Bool.eq_false_iff.mpr hb
        have hcons : (kv :: ps).filter (fun kv => kv.1 == K) =
            ps.filter (fun kv => kv.1 == K) := by
          rw [List.filter_cons, if_neg hb]
        rw [hcons, hnil]
        show (dictInsert m kv.1 kv.2).filter (fun kv => kv.1 == K) =
          m.filter (fun kv => kv.1 == K)
        exact filtK_dictInsert_other m kv.1 kv.2 K hne2

/-- C3: whenever a key occurs among the `--mapping` pairs (in particular when it
occurs twice), the merged dict holds exactly one pair for it, whose value is the
last-supplied one, and the merged key sequence is the input key sequence with
later duplicates removed (first-seen position retained). -/
theorem merged_mapping_last_write_first_position (pairs : List (String × String)) (K : String)
    (hK : K ∈ pairs.map Prod.fst) :
    (∃ v, (pairs.filter (fun kv => kv.1 == K)).getLast? = some (K, v) ∧
      (buildMapping pairs).filter (fun kv => kv.1 == K) = [(K, v)]) ∧
    (buildMapping pairs).map Prod.fst = dedupFirst (pairs.map Prod.fst) := by
  constructor
  · have hne : pairs.filter (fun kv => kv.1 == K) ≠ [] := by
      obtain ⟨a, ha, hfa⟩ := List.mem_map.mp hK
      intro hnil
      have hmem : a ∈ pairs.filter (fun kv => kv.1 == K) :=
        List.mem_filter.mpr ⟨ha, beq_iff_eq.mpr hfa⟩
      rw [hnil] at hmem
      cases hmem
    obtain ⟨kv0, hlast⟩ : ∃ kv0, (pairs.filter (fun kv => kv.1 == K)).getLast? = some kv0 := by
      cases hg : (pairs.filter (fun kv => kv.1 == K)).getLast? with
      | none => exact absurd (List.getLast?_eq_none_iff.mp hg) hne
      | some kv0 => exact ⟨kv0, rfl⟩
    have hkv0K : kv0.1 = K := by
      have hmem : kv0 ∈ pairs.filter (fun kv => kv.1 == K) := List.mem_of_mem_getLast? hlast
      exact beq_iff_eq.mp (List.mem_filter.mp hmem).2
    refine ⟨kv0.2, ?_, ?_⟩
    · rw [hlast, show ((K, kv0.2) : String × String) = kv0 from by rw [← hkv0K]]
    · unfold buildMapping
      rw [filtK_foldl K pairs [] (by simp), hlast]
  · exact keys_buildMapping pairs

theorem merged_mapping_last_write_first_position_witness :
    ("K" ∈ ([("K", "1"), ("K", "2")] : List (String × String)).map Prod.fst) ∧
    ((∃ v, (([("K", "1"), ("K", "2")] : List (String × String)).filter
          (fun kv => kv.1 == "K")).getLast? = some ("K", v) ∧
      (buildMapping [("K", "1"), ("K", "2")]).filter (fun kv => kv.1 == "K") = [("K", v)]) ∧
    (buildMapping [("K", "1"), ("K", "2")]).map Prod.fst =
      dedupFirst (([("K", "1"), ("K", "2")] : List (String × String)).map Prod.fst)) :=
  ⟨by decide, merged_mapping_last_write_first_position [("K", "1"), ("K", "2")] "K" (by decide)⟩

lemma pyFalsyMapping_eq_false_iff (o : Option (List (String × String))) :
    pyFalsyMapping o = false ↔ ∃ l, o = some l ∧ l ≠ [] := by
  cases o with
  | none => simp [pyFalsyMapping]
  | some l => simp [pyFalsyMapping, List.isEmpty_eq_false]

lemma pyListMode_ok_built (env : SysEnv) (out : MainOut)
    (h : pyListMode env = Except.ok out) : out.built = none := by
  unfold pyListMode at h
  by_cases h1 : (list_available_devices env).isEmpty = true
  · rw [if_pos h1] at h
    have := Except.ok.inj h
    rw [← this]
  · rw [if_neg h1] at h
    by_cases h2 : (list_available_devices env).all
        (fun d => (pyInt (sliceFrom d.1 5)).isSome) = true
    · rw [if_pos h2] at h
      have := Except.ok.inj h
      rw [← this]
    · rw [if_neg h2] at h
      exact Except.noConfusion h

/-- C4: whenever a run of `main` constructs an hwdb entry text, the positional
device was supplied, all four identity attributes were read as non-empty
strings, and at least one `--mapping` pair was present.  (Construction is a
pure function of its arguments in this embedding, mirroring that the Python
builder mutates none of its inputs.) -/
theorem entry_constructed_only_with_guards (env : SysEnv) (args : Args) (out : MainOut)
    (s : String) (hrun : pyMain env args = Except.ok out) (hbuilt : out.built = some s) :
    ∃ event, args.device = some event ∧
      (∃ t, get_device_name env.fs event = some t ∧ t ≠ "") ∧
      (∃ t, get_device_phys env.fs event = some t ∧ t ≠ "") ∧
      (∃ t, get_device_ev env.fs event = some t ∧ t ≠ "") ∧
      (∃ t, get_system_vendor env.fs = some t ∧ t ≠ "") ∧
      (∃ l, args.mapping = some l ∧ l ≠ []) := by
  unfold pyMain at hrun
  by_cases hl : args.list_devices = true
  · rw [if_pos hl] at hrun
    have := pyListMode_ok_built env out hrun
    rw [this] at hbuilt
    exact Option.noConfusion hbuilt
  · rw [if_neg hl] at hrun
    by_cases hd : pyFalsy args.device = true
    · rw [if_pos hd] at hrun
      have := Except.ok.inj hrun
      rw [← this] at hbuilt
      exact Option.noConfusion hbuilt
    · rw [if_neg hd] at hrun
      have hout : remapMode env args (args.device.getD "") = out := Except.ok.inj hrun
      obtain ⟨dev, hdev, hdne⟩ :=
        (pyFalsy_eq_false_iff args.device).mp (Bool.eq_false_iff.mpr hd)
      rw [← hout] at hbuilt
      rw [hdev] at hbuilt
      simp only [Option.getD_some] at hbuilt
      refine ⟨dev, hdev, ?_⟩
      unfold remapMode at hbuilt
      by_cases c1 : (!validate_event_device env.dirExists dev) = true
      · rw [if_pos c1] at hbuilt
        exact Option.noConfusion hbuilt
      rw [if_neg c1] at hbuilt
      by_cases c2 : (pyFalsyMapping args.mapping && !args.list_devices) = true
      · rw [if_pos c2] at hbuilt
        exact Option.noConfusion hbuilt
      rw [if_neg c2] at hbuilt
      by_cases c3 : pyFalsy (get_device_name env.fs dev) = true
      · rw [if_pos c3] at hbuilt
        exact Option.noConfusion hbuilt
      rw [if_neg c3] at hbuilt
      by_cases c4 : pyFalsy (get_device_phys env.fs dev) = true
      · rw [if_pos c4] at hbuilt
        exact Option.noConfusion hbuilt
      rw [if_neg c4] at hbuilt
      by_cases c5 : pyFalsy (get_device_ev env.fs dev) = true
      · rw [if_pos c5] at hbuilt
        exact Option.noConfusion hbuilt
      rw [if_neg c5] at hbuilt
      by_cases c6 : pyFalsy (get_system_vendor env.fs) = true
      · rw [if_pos c6] at hbuilt
        exact Option.noConfusion hbuilt
      have hmap : pyFalsyMapping args.mapping = false := by
        have hnl : (!args.list_devices) = true := by
          cases hld : args.list_devices
          · rfl
          · exact absurd hld hl
        cases hm : pyFalsyMapping args.mapping
        · rfl
        · exfalso
          apply c2
          rw [hm, hnl]
          rfl
      refine ⟨(pyFalsy_eq_false_iff _).mp (Bool.eq_false_iff.mpr c3),
              (pyFalsy_eq_false_iff _).mp (Bool.eq_false_iff.mpr c4),
              (pyFalsy_eq_false_iff _).mp (Bool.eq_false_iff.mpr c5),
              (pyFalsy_eq_false_iff _).mp (Bool.eq_false_iff.mpr c6),
              (pyFalsyMapping_eq_false_iff args.mapping).mp hmap⟩

/-- The hwdb entry text of the end-to-end scenario used by the witnesses. -/
def wEntry : String :=
  "evdev:name:Foo Keyboard:phys:usb-0000:00:14.0-1/input0:ev:120013:dmi:bvn*:bvr*:bd*:svnDellInc.:pn*\n KEYBOARD_KEY_1d=LEFTALT\n"

/-- Readable files of the witness world. -/
def wFs : String → Option String := fun q =>
  if q = "/sys/class/input/event3/device/name" then some "Foo Keyboard"
  else if q = "/sys/class/input/event3/device/phys" then some "usb-0000:00:14.0-1/input0"
  else if q = "/sys/class/input/event3/device/capabilities/ev" then some "120013"
  else if q = "/sys/class/dmi/id/sys_vendor" then some "DellInc."
  else none

/-- The witness world: `event3` present with full attributes, writable output. -/
def wEnv : SysEnv :=
  { fs := wFs, dirExists := fun q => q == "/sys/class/input/event3",
    inputEntries := ["event3"], outFs := fun _ => none, writeOk := fun _ => true }

/-- The witness invocation: `event3 --mapping 1d=LEFTALT`. -/
def wArgs : Args :=
  { list_devices := false, device := some "event3",
    mapping := some [("1d", "LEFTALT")], output := "99-keyboard.hwdb" }

/-- The outcome of the witness run. -/
def wOut : MainOut :=
  ⟨0, some wEntry, fun q => if q = "99-keyboard.hwdb" then some wEntry else none, []⟩

theorem entry_constructed_only_with_guards_witness :
    (pyMain wEnv wArgs = Except.ok wOut ∧ wOut.built = some wEntry) ∧
    (∃ event, wArgs.device = some event ∧
      (∃ t, get_device_name wEnv.fs event = some t ∧ t ≠ "") ∧
      (∃ t, get_device_phys wEnv.fs event = some t ∧ t ≠ "") ∧
      (∃ t, get_device_ev wEnv.fs event = some t ∧ t ≠ "") ∧
      (∃ t, get_system_vendor wEnv.fs = some t ∧ t ≠ "") ∧
      (∃ l, wArgs.mapping = some l ∧ l ≠ [])) :=
  ⟨⟨rfl, rfl⟩, entry_constructed_only_with_guards wEnv wArgs wOut wEntry rfl rfl⟩

/-- C10: in list mode, if enumeration yields a device record whose event name
suffix after `event` does not parse as a Python integer, the sort-key
extraction `int(event[5:])` raises an unhandled `ValueError` instead of a clean
non-zero exit. -/
theorem list_mode_bad_suffix_raises (env : SysEnv) (args : Args)
    (hl : args.list_devices = true)
    (hbad : ∃ d ∈ list_available_devices env, pyInt (sliceFrom d.1 5) = none) :
    pyMain env args = Except.error "ValueError" := by
  obtain ⟨d, hd, hnone⟩ := hbad
  unfold pyMain
  rw [if_pos hl]
  unfold pyListMode
  have hne : (list_available_devices env).isEmpty = false :=
    List.isEmpty_eq_false.mpr (List.ne_nil_of_mem hd)
  rw [if_neg (by rw [hne]; exact Bool.false_ne_true)]
  have hall : (list_available_devices env).all
      (fun d => (pyInt (sliceFrom d.1 5)).isSome) = false := by
    apply List.all_eq_false.mpr
    exact ⟨d, hd, by rw [hnone]; simp⟩
  rw [if_neg (by rw [hall]; exact Bool.false_ne_true)]

/-- A world whose only enumerated input device is `eventX` with a readable name. -/
def wBadEnv : SysEnv :=
  { fs := fun q => if q = "/sys/class/input/eventX/device/name" then some "Foo" else none,
    dirExists := fun q => q == "/sys/class/input",
    inputEntries := ["eventX"], outFs := fun _ => none, writeOk := fun _ => false }

/-- The witness invocation `--list-devices`. -/
def wBadArgs : Args :=
  { list_devices := true, device := none, mapping := none, output := "99-keyboard.hwdb" }

theorem list_mode_bad_suffix_raises_witness :
    (wBadArgs.list_devices = true ∧
      ∃ d ∈ list_available_devices wBadEnv, pyInt (sliceFrom d.1 5) = none) ∧
    pyMain wBadEnv wBadArgs = Except.error "ValueError" :=
  ⟨⟨rfl, by decide⟩, list_mode_bad_suffix_raises wBadEnv wBadArgs rfl (by decide)⟩

lemma pyStrip_all_whitespace (w : String) (hw : w.data.all Char.isWhitespace = true) :
    pyStrip w = "" := by
  unfold pyStrip
  have h1 : w.data.dropWhile Char.isWhitespace = [] :=
    List.dropWhile_eq_nil_iff.mpr (fun x hx => List.all_eq_true.mp hw x hx)
  rw [h1]
  rfl

lemma pyMain_not_list (env : SysEnv) (args : Args) (hl : args.list_devices = false) :
    pyMain env args = (if pyFalsy args.device then Except.ok ⟨1, none, env.outFs, []⟩
      else Except.ok (remapMode env args (args.device.getD ""))) := by
  unfold pyMain
  rw [if_neg (by rw [hl]; exact Bool.false_ne_true)]

/-- C9: a readable attribute file holding only whitespace is read as the empty
string, and (outside list mode) the run then behaves exactly as if the read had
failed: replacing that file's content by a read failure changes nothing in the
outcome of `main`. -/
theorem whitespace_attr_reads_empty_and_aborts (env env' : SysEnv) (p w : String)
    (hw : w.data.all Char.isWhitespace = true)
    (h1 : env.fs p = some w) (h2 : env'.fs p = none)
    (h3 : ∀ q, q ≠ p → env'.fs q = env.fs q)
    (h4 : env'.dirExists = env.dirExists) (h5 : env'.inputEntries = env.inputEntries)
    (h6 : env'.outFs = env.outFs) (h7 : env'.writeOk = env.writeOk)
    (args : Args) (hl : args.list_devices = false) :
    read_file env.fs p = some "" ∧ pyMain env' args = pyMain env args := by
  have hstrip : pyStrip w = "" := pyStrip_all_whitespace w hw
  obtain ⟨fs0, de0, ie0, of0, wo0⟩ := env
  obtain ⟨fs1, de1, ie1, of1, wo1⟩ := env'
  dsimp only at h1 h2 h3 h4 h5 h6 h7
  subst h4
  subst h5
  subst h6
  subst h7
  have hread : read_file fs0 p = some "" := by
    unfold read_file
    rw [h1]
    show some (pyStrip w) = some ""
    rw [hstrip]
  refine ⟨hread, ?_⟩
  have hreadq : ∀ q, pyFalsy (read_file fs1 q) = pyFalsy (read_file fs0 q) := by
    intro q
    by_cases hq : q = p
    · subst hq
      have hn : read_file fs1 q = none := by
        unfold read_file
        rw [h2]
        rfl
      rw [hn, hread]
      rfl
    · unfold read_file
      rw [h3 q hq]
  have hreadv : ∀ q, pyFalsy (read_file fs0 q) = false → read_file fs1 q = read_file fs0 q := by
    intro q hf
    by_cases hq : q = p
    · subst hq
      rw [hread] at hf
      simp [pyFalsy] at hf
    · unfold read_file
      rw [h3 q hq]
  rw [pyMain_not_list _ args hl, pyMain_not_list _ args hl]
  by_cases hd : pyFalsy args.device = true
  · rw [if_pos hd, if_pos hd]
  · rw [if_neg hd, if_neg hd]
    apply congrArg Except.ok
    generalize args.device.getD "" = ev
    unfold remapMode
    dsimp only
    by_cases c1 : (!validate_event_device de1 ev) = true
    · rw [if_pos c1, if_pos c1]
    rw [if_neg c1, if_neg c1]
    by_cases c2 : (pyFalsyMapping args.mapping && !args.list_devices) = true
    · rw [if_pos c2, if_pos c2]
    rw [if_neg c2, if_neg c2]
    have e3 : pyFalsy (get_device_name fs1 ev) = pyFalsy (get_device_name fs0 ev) := hreadq _
    by_cases c3 : pyFalsy (get_device_name fs0 ev) = true
    · rw [if_pos (by rw [e3]; exact c3), if_pos c3]
    rw [if_neg (by rw [e3]; exact c3), if_neg c3]
    have e4 : pyFalsy (get_device_phys fs1 ev) = pyFalsy (get_device_phys fs0 ev) := hreadq _
    by_cases c4 : pyFalsy (get_device_phys fs0 ev) = true
    · rw [if_pos (by rw [e4]; exact c4), if_pos c4]
    rw [if_neg (by rw [e4]; exact c4), if_neg c4]
    have e5 : pyFalsy (get_device_ev fs1 ev) = pyFalsy (get_device_ev fs0 ev) := hreadq _
    by_cases c5 : pyFalsy (get_device_ev fs0 ev) = true
    · rw [if_pos (by rw [e5]; exact c5), if_pos c5]
    rw [if_neg (by rw [e5]; exact c5), if_neg c5]
    have e6 : pyFalsy (get_system_vendor fs1) = pyFalsy (get_system_vendor fs0) := hreadq _
    by_cases c6 : pyFalsy (get_system_vendor fs0) = true
    · rw [if_pos (by rw [e6]; exact c6), if_pos c6]
    rw [if_neg (by rw [e6]; exact c6), if_neg c6]
    have hbe : builtEntry (SysEnv.mk fs1 de1 ie1 of1 wo1) args ev =
        builtEntry (SysEnv.mk fs0 de1 ie1 of1 wo1) args ev := by
      unfold builtEntry
      dsimp only
      have v3 : get_device_name fs1 ev = get_device_name fs0 ev :=
        hreadv ("/sys/class/input/" ++ ev ++ "/device/" ++ "name")
          (Bool.eq_false_iff.mpr c3)
      have v4 : get_device_phys fs1 ev = get_device_phys fs0 ev :=
        hreadv ("/sys/class/input/" ++ ev ++ "/device/" ++ "phys")
          (Bool.eq_false_iff.mpr c4)
      have v5 : get_device_ev fs1 ev = get_device_ev fs0 ev :=
        hreadv ("/sys/class/input/" ++ ev ++ "/device/" ++ "capabilities/ev")
          (Bool.eq_false_iff.mpr c5)
      have v6 : get_system_vendor fs1 = get_system_vendor fs0 :=
        hreadv "/sys/class/dmi/id/sys_vendor" (Bool.eq_false_iff.mpr c6)
      rw [v3, v4, v5, v6]
    rw [hbe]

/-- Readable files of the whitespace-witness world: the name attribute file
holds only whitespace. -/
def wsFs : String → Option String := fun q =>
  if q = "/sys/class/input/event3/device/name" then some " \t " else none

/-- The whitespace-witness world. -/
def wsEnv : SysEnv :=
  { fs := wsFs, dirExists := fun q => q == "/sys/class/input/event3",
    inputEntries := [], outFs := fun _ => none, writeOk := fun _ => true }

/-- The same world with the whitespace-only file replaced by a read failure. -/
def wsEnv' : SysEnv :=
  { wsEnv with
    fs := fun q => if q = "/sys/class/input/event3/device/name" then none else wsFs q }

/-- The whitespace-witness invocation. -/
def wsArgs : Args :=
  { list_devices := false, device := some "event3",
    mapping := some [("1d", "LEFTALT")], output := "99-keyboard.hwdb" }

theorem whitespace_attr_reads_empty_and_aborts_witness :
    (" \t ".data.all Char.isWhitespace = true ∧
      wsEnv.fs "/sys/class/input/event3/device/name" = some " \t " ∧
      wsEnv'.fs "/sys/class/input/event3/device/name" = none ∧
      wsArgs.list_devices = false) ∧
    (read_file wsEnv.fs "/sys/class/input/event3/device/name" = some "" ∧
      pyMain wsEnv' wsArgs = pyMain wsEnv wsArgs) :=
  ⟨⟨by decide, rfl, rfl, rfl⟩,
   whitespace_attr_reads_empty_and_aborts wsEnv wsEnv' "/sys/class/input/event3/device/name"
     " \t " (by decide) rfl rfl (fun q hq => if_neg hq)
     rfl rfl rfl rfl wsArgs rfl⟩
